import Mathlib

/-!
Verification of the client driver `client/main.ts` of the
Solana-Simulation-bridge repository.

The development shallowly embeds the client script: byte buffers are
`List Nat` with every entry below 256, public keys are their 32-byte
contents (`List Nat`), the file system is a partial map from path to
file text (`List Char`), and every RPC call of the `Connection` object
is a field of an `Env` record supplying that call's outcome, so that
the straight-line `main` becomes an `Except`-valued function of the
environment.  JavaScript `number` arithmetic on the sequence counter is
embedded exactly: `Number(bigint)` is IEEE-754 round-to-nearest-even of
an integer to a binary64 value, modelled on integers by `toFloat64Nat`.
-/

/-- Bytes of a 32-byte public key (`PublicKey.toBuffer`). -/
abbrev PK := List Nat

/-- Error values: the message of a thrown `Error`. -/
abbrev Err := String

/-- A transaction signature, abstracted. -/
abbrev Sig := Nat

/-- The local file system: path to file text, `none` when the file
does not exist (`fs.existsSync` is `Option.isSome`). -/
abbrev FS := String → Option (List Char)

/-- `fs.writeFileSync`: update one path, leave the rest. -/
def writeFile (fs : FS) (path : String) (content : List Char) : FS :=
  fun q => if q = path then some content else fs q

/-- UTF-8 bytes of an ASCII seed string (`Buffer.from(s)`). -/
def strBytes (s : String) : List Nat :=
  s.data.map Char.toNat

/-- `LAMPORTS_PER_SOL` from `@solana/web3.js`. -/
def LAMPORTS_PER_SOL : Nat := 1000000000

/-- `buf.writeBigUInt64LE(v, off)` byte image: the eight little-endian
bytes of a value below `2 ^ 64`. -/
def le64 (n : Nat) : List Nat :=
  (List.range 8).map (fun i => n / 256 ^ i % 256)

/-- `buf.readBigUInt64LE(0)`: the first eight bytes, little endian. -/
def readBigUInt64LE (data : List Nat) : Nat :=
  (List.range 8).foldr (fun i acc => acc * 256 + data.getD i 0) 0

/-! ## Decimal digits and the JSON integer-array codec

`JSON.stringify(Array.from(bytes))` prints `[b0,b1,...]` with each
number in decimal and no spaces; the load branches run `JSON.parse` on
exactly such text.  The codec below is that grammar. -/

/-- Decimal digits of `n`, least significant first, by fuel (`fuel ≥ n`
suffices). -/
def natDigitsRevF : Nat → Nat → List Nat
  | 0, _ => []
  | fuel + 1, n => if n = 0 then [] else n % 10 :: natDigitsRevF fuel (n / 10)

/-- Decimal digits of `n`, most significant first. -/
def natDigits (n : Nat) : List Nat :=
  (natDigitsRevF n n).reverse

/-- The character of a decimal digit. -/
def digitChar (d : Nat) : Char :=
  Char.ofNat (48 + d)

/-- The digit of a decimal character. -/
def charDigit (c : Char) : Nat :=
  c.toNat - 48

/-- The decimal rendering of `n`, as `String(n)` prints it. -/
def natChars (n : Nat) : List Char :=
  if n = 0 then [Char.ofNat 48] else (natDigits n).map digitChar

/-- Value of a digit run, most significant first. -/
def digitsToNat (l : List Nat) : Nat :=
  l.foldl (fun a d => 10 * a + d) 0

/-- Body of `JSON.stringify` of a number array: the elements in
decimal, comma separated, no spaces. -/
def jsonBody : List Nat → List Char
  | [] => []
  | [x] => natChars x
  | x :: y :: ys => natChars x ++ Char.ofNat 44 :: jsonBody (y :: ys)

/-- `JSON.stringify(Array.from(bytes))`: `[` body `]`. -/
def jsonStringifyNatArray (l : List Nat) : List Char :=
  Char.ofNat 91 :: (jsonBody l ++ [Char.ofNat 93])

/-- Elements of a JSON integer array after the opening bracket: digit
runs separated by commas, closed by `]` at the end of input.  Fuel
`length + 1` suffices. -/
def parseElemsF : Nat → List Char → Option (List Nat)
  | 0, _ => none
  | fuel + 1, cs =>
    let ds := cs.takeWhile Char.isDigit
    let rest := cs.dropWhile Char.isDigit
    if ds = [] then none
    else if rest.head? = some (Char.ofNat 93) then
      if rest.length = 1 then some [digitsToNat (ds.map charDigit)] else none
    else if rest.head? = some (Char.ofNat 44) then
      (parseElemsF fuel rest.tail).map (fun t => digitsToNat (ds.map charDigit) :: t)
    else none

/-- `JSON.parse` restricted to the integer-array documents these files
hold (the only shape the script ever writes or reads). -/
def parseJsonNatArray (cs : List Char) : Option (List Nat) :=
  match cs with
  | c :: rest =>
    if c = Char.ofNat 91 then
      if rest = [Char.ofNat 93] then some []
      else parseElemsF (rest.length + 1) rest
    else none
  | [] => none

/-- `Uint8Array.from(numbers)`: each element is coerced to an octet. -/
def uint8ArrayFrom (l : List Nat) : List Nat :=
  l.map (fun b => b % 256)

/-! ## JavaScript number semantics for the sequence counter

`getLoggerSequence` returns `Number(bigUint64)` and `getMessagePda`
receives `seq + 1` computed on JavaScript numbers.  On integers,
conversion to a binary64 value is round-to-nearest-even to 53
significant bits; integer addition then rounds the exact sum. -/

/-- Position of the most significant bit (`floor (logBase 2 n)`), by
fuel; 70 halvings cover every value a `u64` read can produce. -/
def log2F : Nat → Nat → Nat
  | 0, _ => 0
  | fuel + 1, n => if 2 ≤ n then log2F fuel (n / 2) + 1 else 0

/-- Round-to-nearest-even of `n / 2 ^ s` for `s ≥ 1`. -/
def roundEvenDiv (n s : Nat) : Nat :=
  let q := n / 2 ^ s
  let r := n % 2 ^ s
  let half := 2 ^ s / 2
  if half < r then q + 1
  else if r = half then (if q % 2 = 1 then q + 1 else q)
  else q

/-- `Number(n)` for a nonnegative integer `n` (well below the binary64
overflow threshold): the nearest binary64 value, ties to even. -/
def toFloat64Nat (n : Nat) : Nat :=
  if n < 2 ^ 53 then n
  else
    let s := log2F 70 n - 52
    roundEvenDiv n s * 2 ^ s

/-- `seq + 1` on JavaScript numbers, for an integral `seq` that is
itself a binary64 value: the exact sum rounded. -/
def jsAddOne (n : Nat) : Nat :=
  toFloat64Nat (n + 1)

/-! ## Keypairs and the file-backed identity helpers -/

/-- A keypair as `@solana/web3.js` holds it: the 64-byte ed25519
secret key, whose last 32 bytes are the public key. -/
structure Keypair where
  secretKey : List Nat

/-- `keypair.publicKey` (the trailing 32 bytes of the secret key). -/
def Keypair.publicKey (k : Keypair) : PK :=
  k.secretKey.drop 32

/-- `Keypair.generate()` applied to the fresh 64 random bytes the
environment supplies. -/
def Keypair.ofGenerated (fresh : List Nat) : Keypair :=
  ⟨fresh⟩

/-- `Keypair.fromSecretKey`: rejects key material that is not 64
bytes, otherwise wraps it. -/
def Keypair.fromSecretKey (sk : List Nat) : Except Err Keypair :=
  if sk.length = 64 then Except.ok ⟨sk⟩ else Except.error ("bad secret key size")

/-- File names used by the script. -/
def LOGGER_STATE_FILE : String := "logger_state.json"

def USER1_FILE : String := "wallet1.json"

def USER2_FILE : String := "wallet2.json"

/-- `getOrCreateKeypair(filePath, label)`: load the keypair stored in
`filePath` when the file exists; otherwise generate one (`fresh` is
the generated key material), persist its secret key as a JSON integer
array, and return it.  Thrown errors (`JSON.parse`, key size) surface
as `Except.error`. -/
def getOrCreateKeypair (fs : FS) (filePath : String) (fresh : List Nat) :
    Except Err (Keypair × FS) :=
  match fs filePath with
  | some content =>
    match parseJsonNatArray content with
    | some arr => (Keypair.fromSecretKey (uint8ArrayFrom arr)).map (fun kp => (kp, fs))
    | none => Except.error ("JSON.parse: invalid wallet file")
  | none =>
    Except.ok (Keypair.ofGenerated fresh,
      writeFile fs filePath (jsonStringifyNatArray fresh))

/-! ## The RPC environment

Each awaited call of the script is an oracle: the environment fixes
the outcome (value or thrown error) of every external operation, and
`main` below is the source's straight-line sequence of those calls. -/

/-- One account in a `TransactionInstruction`'s key list. -/
structure AccountMeta where
  pubkey : PK
  isSigner : Bool
  isWritable : Bool

/-- A `TransactionInstruction`. -/
structure Ix where
  programId : PK
  keys : List AccountMeta
  data : List Nat

/-- `SystemProgram.programId` (the all-zero key). -/
def SYSTEM_PROGRAM_ID : PK := List.replicate 32 0

/-- `TOKEN_PROGRAM_ID`.  An opaque 32-byte constant; no claim depends
on its bytes, only on its position in the key lists. -/
def TOKEN_PROGRAM_ID : PK := 1 :: List.replicate 31 0

/-- `SYSVAR_RENT_PUBKEY`.  Opaque, as above. -/
def SYSVAR_RENT_PUBKEY : PK := 2 :: List.replicate 31 0

/-- Outcomes of every external call the script awaits, plus the
random key material `Keypair.generate()` draws and the (opaque)
program-derived-address function `PublicKey.findProgramAddress`. -/
structure Env where
  fs : FS
  fresh1 : List Nat
  fresh2 : List Nat
  freshLogger : List Nat
  getBalance : PK → Except Err Nat
  requestAirdrop : PK → Nat → Except Err Sig
  confirmTx : Sig → Except Err Unit
  getMinimumBalanceForRentExemption : Nat → Except Err Nat
  createLoggerAccountTx : PK → PK → Nat → Except Err Sig
  createMint : Except Err PK
  getOrCreateATA : PK → PK → Except Err PK
  mintTo : PK → Nat → Except Err Unit
  getAccount : PK → Except Err Nat
  getAccountInfo : PK → Except Err (Option (List Nat))
  getTransaction : Sig → Except Err (Option (List String))
  sendTx : Ix → Except Err Sig
  fpa : List (List Nat) → PK → PK × Nat
  escrowProgramId : PK
  loggerProgramId : PK

/-- `airdropIfNeeded(pubkey, label)`: query the balance and, only when
it is below `2 * LAMPORTS_PER_SOL`, request an airdrop of that amount
and await its confirmation.  The returned list records the airdrop
requests issued. -/
def airdropIfNeeded (env : Env) (pubkey : PK) : Except Err (List (PK × Nat)) := do
  let balance ← env.getBalance pubkey
  if balance < 2 * LAMPORTS_PER_SOL then do
    let sig ← env.requestAirdrop pubkey (2 * LAMPORTS_PER_SOL)
    let _ ← env.confirmTx sig
    pure [(pubkey, 2 * LAMPORTS_PER_SOL)]
  else
    pure []

/-- `getLoggerSequence(statePubkey)`: fetch the account, throw when it
is absent or its data is shorter than 8 bytes, otherwise return
`Number` of the little-endian `u64` at offset 0. -/
def getLoggerSequence (env : Env) (statePubkey : PK) : Except Err Nat := do
  let accountInfo ← env.getAccountInfo statePubkey
  match accountInfo with
  | none => Except.error ("LoggerState not found")
  | some data =>
    if data.length < 8 then Except.error ("Invalid LoggerState")
    else pure (toFloat64Nat (readBigUInt64LE data))

/-- `getOrCreateLoggerStateAccount(payer)`: load the keypair stored in
`logger_state.json` when it exists; otherwise generate one, fund a
fresh 8-byte account for it owned by the logger program, persist the
secret key, and return it. -/
def getOrCreateLoggerStateAccount (env : Env) (fs : FS) (payer : Keypair) :
    Except Err (Keypair × FS) :=
  match fs LOGGER_STATE_FILE with
  | some content =>
    match parseJsonNatArray content with
    | some arr => (Keypair.fromSecretKey (uint8ArrayFrom arr)).map (fun kp => (kp, fs))
    | none => Except.error ("JSON.parse: invalid logger state file")
  | none => do
    let kp := Keypair.ofGenerated env.freshLogger
    let lamports ← env.getMinimumBalanceForRentExemption 8
    let _ ← env.createLoggerAccountTx payer.publicKey kp.publicKey lamports
    pure (kp, writeFile fs LOGGER_STATE_FILE (jsonStringifyNatArray kp.secretKey))

/-- `getMessagePda(loggerProg, sequence)`: derive the message address
from the seeds `"logger"` and the 8-byte little-endian sequence;
`writeBigUInt64LE` throws a `RangeError` at or above `2 ^ 64`. -/
def getMessagePda (fpa : List (List Nat) → PK → PK × Nat) (loggerProg : PK)
    (sequence : Nat) : Except Err (PK × Nat) :=
  if sequence < 2 ^ 64 then
    Except.ok (fpa [strBytes ("logger"), le64 sequence] loggerProg)
  else
    Except.error ("RangeError")

/-- Lines 142-143 and 181-182 of `main`: read the sequence from the
logger state and derive the message address for `sequence + 1`. -/
def readSeqAndMessagePda (env : Env) (statePubkey : PK) : Except Err (Nat × PK) := do
  let seqBefore ← getLoggerSequence env statePubkey
  let r ← getMessagePda env.fpa env.loggerProgramId (jsAddOne seqBefore)
  pure (seqBefore, r.1)

/-- The escrow-data address: seeds `["escrow", mint]` (line 127). -/
def escrowPdaOf (fpa : List (List Nat) → PK → PK × Nat) (escrowProg mint : PK) :
    PK × Nat :=
  fpa [strBytes ("escrow"), mint] escrowProg

/-- The vault address: seeds `["vault", mint]` (line 131). -/
def vaultPdaOf (fpa : List (List Nat) → PK → PK × Nat) (escrowProg mint : PK) :
    PK × Nat :=
  fpa [strBytes ("vault"), mint] escrowProg

/-- The instruction payload: `Buffer.alloc(9)`, `writeUInt8(disc, 0)`,
`writeBigUInt64LE(BigInt(amount), 1)`; both writes throw a
`RangeError` outside their value range. -/
def encodeInstruction (disc amount : Nat) : Except Err (List Nat) :=
  if 256 ≤ disc then Except.error ("RangeError: writeUInt8")
  else if 2 ^ 64 ≤ amount then Except.error ("RangeError: writeBigUInt64LE")
  else Except.ok (disc :: le64 amount)

/-- The deposit instruction's 13 accounts and payload (lines 145-163). -/
def buildDepositIx (escrowProg loggerProg user1Pk user1Tok escrowData vault
    loggerState msgPda mint : PK) (data : List Nat) : Ix :=
  { programId := escrowProg
    keys :=
      [⟨user1Pk, true, true⟩,
       ⟨user1Tok, false, true⟩,
       ⟨escrowData, false, true⟩,
       ⟨vault, false, true⟩,
       ⟨SYSTEM_PROGRAM_ID, false, false⟩,
       ⟨TOKEN_PROGRAM_ID, false, false⟩,
       ⟨SYSVAR_RENT_PUBKEY, false, false⟩,
       ⟨loggerProg, false, false⟩,
       ⟨loggerState, false, true⟩,
       ⟨msgPda, false, true⟩,
       ⟨user1Pk, true, true⟩,
       ⟨SYSTEM_PROGRAM_ID, false, false⟩,
       ⟨mint, false, false⟩]
    data := data }

/-- The withdraw instruction's 11 accounts and payload (lines 184-200). -/
def buildWithdrawIx (escrowProg loggerProg user1Pk user2Tok escrowData vault
    loggerState msgPda : PK) (data : List Nat) : Ix :=
  { programId := escrowProg
    keys :=
      [⟨user1Pk, true, true⟩,
       ⟨user2Tok, false, true⟩,
       ⟨escrowData, false, true⟩,
       ⟨vault, false, true⟩,
       ⟨TOKEN_PROGRAM_ID, false, false⟩,
       ⟨loggerProg, false, false⟩,
       ⟨loggerState, false, true⟩,
       ⟨vault, false, false⟩,
       ⟨msgPda, false, true⟩,
       ⟨user1Pk, true, true⟩,
       ⟨SYSTEM_PROGRAM_ID, false, false⟩]
    data := data }

/-- `printLogsForTx(signature)`: fetch the transaction; either outcome
is only logged, never thrown. -/
def printLogsForTx (env : Env) (signature : Sig) : Except Err Unit := do
  let _ ← env.getTransaction signature
  pure ()

/-! ## The `main` driver -/

/-- What a successful run of `main` produced. -/
structure RunOut where
  user1 : Keypair
  user2 : Keypair
  loggerState : Keypair
  mint : PK
  escrowDataPda : PK
  vaultPda : PK
  seqBefore : Nat
  depositMsgPda : PK
  depositIx : Ix
  withdrawSeq : Nat
  withdrawMsgPda : PK
  withdrawIx : Ix
  finalFs : FS

/-- `main()`: the source's straight-line sequence of awaited calls, in
order, with no try/catch anywhere; any thrown error aborts the chain
as `Except.error`. -/
def mainRun (env : Env) : Except Err RunOut := do
  let (user1, fs1) ← getOrCreateKeypair env.fs USER1_FILE env.fresh1
  let (user2, fs2) ← getOrCreateKeypair fs1 USER2_FILE env.fresh2
  let _ ← airdropIfNeeded env user1.publicKey
  let _ ← airdropIfNeeded env user2.publicKey
  let (loggerStateKP, fs3) ← getOrCreateLoggerStateAccount env fs2 user1
  let mint ← env.createMint
  let user1TokenAcc ← env.getOrCreateATA mint user1.publicKey
  let user2TokenAcc ← env.getOrCreateATA mint user2.publicKey
  let _ ← env.mintTo user1TokenAcc 100
  let _ ← env.mintTo user2TokenAcc 100
  let _ ← env.getAccount user1TokenAcc
  let _ ← env.getAccount user2TokenAcc
  let escrowDataPda := (escrowPdaOf env.fpa env.escrowProgramId mint).1
  let vaultPda := (vaultPdaOf env.fpa env.escrowProgramId mint).1
  let depositData ← encodeInstruction 0 50
  let (seqBefore, messagePda) ← readSeqAndMessagePda env loggerStateKP.publicKey
  let depositIx := buildDepositIx env.escrowProgramId env.loggerProgramId
    user1.publicKey user1TokenAcc escrowDataPda vaultPda
    loggerStateKP.publicKey messagePda mint depositData
  let depositSig ← env.sendTx depositIx
  let _ ← printLogsForTx env depositSig
  let _ ← env.getAccount user1TokenAcc
  let _ ← env.getAccount vaultPda
  let withdrawData ← encodeInstruction 1 30
  let (withdrawSeq, withdrawMessagePda) ← readSeqAndMessagePda env loggerStateKP.publicKey
  let withdrawIx := buildWithdrawIx env.escrowProgramId env.loggerProgramId
    user1.publicKey user2TokenAcc escrowDataPda vaultPda
    loggerStateKP.publicKey withdrawMessagePda withdrawData
  let withdrawSig ← env.sendTx withdrawIx
  let _ ← printLogsForTx env withdrawSig
  let _ ← env.getAccount user1TokenAcc
  let _ ← env.getAccount user2TokenAcc
  let _ ← env.getAccount vaultPda
  pure
    { user1 := user1
      user2 := user2
      loggerState := loggerStateKP
      mint := mint
      escrowDataPda := escrowDataPda
      vaultPda := vaultPda
      seqBefore := seqBefore
      depositMsgPda := messagePda
      depositIx := depositIx
      withdrawSeq := withdrawSeq
      withdrawMsgPda := withdrawMessagePda
      withdrawIx := withdrawIx
      finalFs := fs3 }

/-- `main().catch(err => console.error('Main failed:', err))`: the one
top-level handler; it logs the propagated error and nothing more. -/
def mainCatch (env : Env) : List String :=
  match mainRun env with
  | Except.error e => [("Main failed: ") ++ e]
  | Except.ok _ => []

/-! ## Concrete environments for evaluation -/

/-- A concrete derivation function used to instantiate the opaque
`findProgramAddress` in witnesses: any function of the seeds and the
program id will do. -/
def fpa0 : List (List Nat) → PK → PK × Nat :=
  fun seeds prog => (seeds.foldl (fun a s => a ++ s) [] ++ prog, 255)

/-- An environment in which every call succeeds: no wallet files yet,
balances already above the airdrop threshold, logger sequence 5. -/
def envOk : Env :=
  { fs := fun _ => none
    fresh1 := List.replicate 64 1
    fresh2 := List.replicate 64 2
    freshLogger := List.replicate 64 3
    getBalance := fun _ => Except.ok (3 * LAMPORTS_PER_SOL)
    requestAirdrop := fun _ _ => Except.ok 0
    confirmTx := fun _ => Except.ok ()
    getMinimumBalanceForRentExemption := fun _ => Except.ok 890880
    createLoggerAccountTx := fun _ _ _ => Except.ok 1
    createMint := Except.ok (List.replicate 32 9)
    getOrCreateATA := fun mint owner => Except.ok (3 :: mint ++ owner)
    mintTo := fun _ _ => Except.ok ()
    getAccount := fun _ => Except.ok 100
    getAccountInfo := fun _ => Except.ok (some [5, 0, 0, 0, 0, 0, 0, 0])
    getTransaction := fun _ => Except.ok (some [])
    sendTx := fun _ => Except.ok 2
    fpa := fpa0
    escrowProgramId := List.replicate 32 8
    loggerProgramId := List.replicate 32 7 }

/-- `envOk` with `createMint` throwing, to watch a mid-run error
propagate. -/
def envFailMint : Env :=
  { envOk with createMint := Except.error ("boom") }

/-- `envOk` with the logger-state account holding the counter
`2 ^ 53` (bytes `[0,0,0,0,0,0,32,0]`). -/
def envSeqHuge : Env :=
  { envOk with getAccountInfo := fun _ => Except.ok (some [0, 0, 0, 0, 0, 0, 32, 0]) }

/-- `envOk` with the logger-state account holding `2 ^ 53 + 1`. -/
def envSeqHuge1 : Env :=
  { envOk with getAccountInfo := fun _ => Except.ok (some [1, 0, 0, 0, 0, 0, 32, 0]) }

/-! ## Correctness of the JSON integer-array codec -/

theorem natDigitsRevF_lt10 : ∀ fuel n d, d ∈ natDigitsRevF fuel n → d < 10 := by
  intro fuel
  induction fuel with
  | zero => intro n d h; simp [natDigitsRevF] at h
  | succ f ih =>
    intro n d h
    by_cases h0 : n = 0
    · simp [natDigitsRevF, h0] at h
    · simp only [natDigitsRevF, if_neg h0, List.mem_cons] at h
      rcases h with h | h
      · subst h; exact Nat.mod_lt _ (by omega)
      · exact ih _ _ h

theorem digitsToNat_append (xs : List Nat) (d : Nat) :
    digitsToNat (xs ++ [d]) = 10 * digitsToNat xs + d := by
  simp [digitsToNat, List.foldl_append]

theorem natDigitsRevF_val : ∀ fuel n, n ≤ fuel →
    digitsToNat ((natDigitsRevF fuel n).reverse) = n := by
  intro fuel
  induction fuel with
  | zero =>
    intro n h
    have h0 : n = 0 := by omega
    subst h0
    simp [natDigitsRevF, digitsToNat]
  | succ f ih =>
    intro n h
    by_cases h0 : n = 0
    · subst h0; simp [natDigitsRevF, digitsToNat]
    · have hdiv : n / 10 ≤ f := by
        have hlt : n / 10 < n := Nat.div_lt_self (Nat.pos_of_ne_zero h0) (by omega)
        omega
      simp only [natDigitsRevF, if_neg h0, List.reverse_cons]
      rw [digitsToNat_append, ih _ hdiv]
      omega

theorem charDigit_digitChar : ∀ d, d < 10 → charDigit (digitChar d) = d := by decide

theorem isDigit_digitChar : ∀ d, d < 10 → (digitChar d).isDigit = true := by decide

theorem natChars_isDigit : ∀ n c, c ∈ natChars n → c.isDigit = true := by
  intro n c h
  by_cases h0 : n = 0
  · subst h0
    simp [natChars] at h
    subst h
    decide
  · simp only [natChars, if_neg h0, List.mem_map] at h
    obtain ⟨d, hd, rfl⟩ := h
    exact isDigit_digitChar d (natDigitsRevF_lt10 n n d (List.mem_reverse.mp hd))

theorem natChars_ne_nil (n : Nat) : natChars n ≠ [] := by
  cases n with
  | zero => simp [natChars]
  | succ m => simp [natChars, natDigits, natDigitsRevF]

theorem natChars_val (n : Nat) : digitsToNat ((natChars n).map charDigit) = n := by
  by_cases h0 : n = 0
  · subst h0; decide
  · simp only [natChars, if_neg h0, List.map_map]
    have hcongr : ∀ d ∈ natDigits n, (charDigit ∘ digitChar) d = d := fun d hd =>
      charDigit_digitChar d (natDigitsRevF_lt10 n n d (List.mem_reverse.mp hd))
    rw [List.map_congr_left hcongr]
    simpa using natDigitsRevF_val n n le_rfl

theorem takeWhile_dropWhile_append (p : Char → Bool) :
    ∀ (xs : List Char) (c : Char) (t : List Char),
    (∀ a ∈ xs, p a = true) → p c = false →
    (xs ++ c :: t).takeWhile p = xs ∧ (xs ++ c :: t).dropWhile p = c :: t := by
  intro xs
  induction xs with
  | nil => intro c t _ hc; simp [List.takeWhile_cons, List.dropWhile_cons, hc]
  | cons a as ih =>
    intro c t hx hc
    have ha : p a = true := hx a (List.mem_cons_self a as)
    have hrec := ih c t (fun b hb => hx b (List.mem_cons_of_mem a hb)) hc
    simp [List.takeWhile_cons, List.dropWhile_cons, ha, hrec.1, hrec.2]

theorem parseElemsF_spec : ∀ (xs : List Nat) (x : Nat) (fuel : Nat),
    xs.length + 1 ≤ fuel →
    parseElemsF fuel (jsonBody (x :: xs) ++ [Char.ofNat 93]) = some (x :: xs) := by
  intro xs
  induction xs with
  | nil =>
    intro x fuel h
    cases fuel with
    | zero => omega
    | succ f =>
      have hspan := takeWhile_dropWhile_append Char.isDigit (natChars x) (Char.ofNat 93) []
        (fun a ha => natChars_isDigit x a ha) (by decide)
      show parseElemsF (f + 1) (natChars x ++ [Char.ofNat 93]) = some [x]
      simp only [parseElemsF]
      rw [hspan.1, hspan.2, if_neg (natChars_ne_nil x)]
      simp [natChars_val]
  | cons y ys ih =>
    intro x fuel h
    cases fuel with
    | zero => simp at h
    | succ f =>
      have hspan := takeWhile_dropWhile_append Char.isDigit (natChars x) (Char.ofNat 44)
        (jsonBody (y :: ys) ++ [Char.ofNat 93])
        (fun a ha => natChars_isDigit x a ha) (by decide)
      have hfuel : ys.length + 1 ≤ f := by
        simp only [List.length_cons] at h
        omega
      have harr : jsonBody (x :: y :: ys) ++ [Char.ofNat 93]
          = natChars x ++ Char.ofNat 44 :: (jsonBody (y :: ys) ++ [Char.ofNat 93]) := by
        simp [jsonBody, List.append_assoc]
      rw [harr]
      simp only [parseElemsF]
      rw [hspan.1, hspan.2, if_neg (natChars_ne_nil x)]
      simp only [List.head?_cons, List.tail_cons, Option.some.injEq, if_true]
      rw [ih y f hfuel]
      simp [natChars_val]

theorem jsonBody_length (x : Nat) (xs : List Nat) :
    xs.length ≤ (jsonBody (x :: xs)).length := by
  induction xs generalizing x with
  | nil => simp
  | cons y ys ih =>
    have h1 : 0 < (natChars x).length := List.length_pos.mpr (natChars_ne_nil x)
    have h2 := ih y
    simp only [jsonBody, List.length_append, List.length_cons]
    omega

theorem parse_stringify (l : List Nat) :
    parseJsonNatArray (jsonStringifyNatArray l) = some l := by
  cases l with
  | nil => rfl
  | cons x xs =>
    obtain ⟨c, t, hct⟩ : ∃ c t, natChars x = c :: t := by
      cases hnc : natChars x with
      | nil => exact absurd hnc (natChars_ne_nil x)
      | cons c t => exact ⟨c, t, rfl⟩
    obtain ⟨t2, h2⟩ : ∃ t2, jsonBody (x :: xs) = natChars x ++ t2 := by
      cases xs with
      | nil => exact ⟨[], (List.append_nil _).symm⟩
      | cons y ys => exact ⟨_, rfl⟩
    show parseJsonNatArray
        (Char.ofNat 91 :: (jsonBody (x :: xs) ++ [Char.ofNat 93])) = some (x :: xs)
    simp only [parseJsonNatArray, if_true]
    have hne : jsonBody (x :: xs) ++ [Char.ofNat 93] ≠ [Char.ofNat 93] := by
      rw [h2, hct]
      simp
    rw [if_neg hne]
    apply parseElemsF_spec
    have := jsonBody_length x xs
    simp only [List.length_append, List.length_cons, List.length_nil]
    omega

theorem uint8ArrayFrom_eq_self (l : List Nat) (h : ∀ b ∈ l, b < 256) :
    uint8ArrayFrom l = l := by
  simp only [uint8ArrayFrom]
  rw [List.map_congr_left (fun b hb => Nat.mod_eq_of_lt (h b hb))]
  simp

/-! ## Exactness of the binary64 embedding below `2 ^ 53` -/

theorem toFloat64Nat_of_lt (n : Nat) (h : n < 2 ^ 53) : toFloat64Nat n = n := by
  simp only [toFloat64Nat, if_pos h]

theorem jsAddOne_of_lt (n : Nat) (h : n < 2 ^ 53) : jsAddOne n = n + 1 := by
  unfold jsAddOne
  by_cases h1 : n + 1 < 2 ^ 53
  · exact toFloat64Nat_of_lt _ h1
  · have h2 : n + 1 = 2 ^ 53 := by omega
    rw [h2]
    decide

/-- Helper: the value of `getOrCreateKeypair` when the file exists. -/
theorem getOrCreateKeypair_some (fs : FS) (path : String) (fresh : List Nat)
    (content : List Char) (h : fs path = some content) :
    getOrCreateKeypair fs path fresh =
      match parseJsonNatArray content with
      | some arr => (Keypair.fromSecretKey (uint8ArrayFrom arr)).map (fun kp => (kp, fs))
      | none => Except.error ("JSON.parse: invalid wallet file") := by
  unfold getOrCreateKeypair
  rw [h]

/-- Helper: the value of `getOrCreateKeypair` when the file is absent. -/
theorem getOrCreateKeypair_none (fs : FS) (path : String) (fresh : List Nat)
    (h : fs path = none) :
    getOrCreateKeypair fs path fresh =
      Except.ok (Keypair.ofGenerated fresh,
        writeFile fs path (jsonStringifyNatArray fresh)) := by
  unfold getOrCreateKeypair
  rw [h]

/-- Claim C1: the instruction payload is a 9-byte buffer, byte 0 the
discriminant (0 = deposit/init, 1 = withdraw), bytes 1..8 the amount
as little-endian `u64`; for amount 50 under discriminant 0 it is
`0x00 ++ LE64(50)`, for amount 30 under discriminant 1 it is
`0x01 ++ LE64(30)`. -/
theorem C1_instruction_payload :
    (∀ disc amount : Nat, disc < 256 → amount < 2 ^ 64 →
      encodeInstruction disc amount = Except.ok (disc :: le64 amount)
      ∧ (disc :: le64 amount).length = 9
      ∧ (disc :: le64 amount).get? 0 = some disc
      ∧ (disc :: le64 amount).drop 1 = le64 amount)
    ∧ encodeInstruction 0 50 = Except.ok (0 :: le64 50)
    ∧ le64 50 = [50, 0, 0, 0, 0, 0, 0, 0]
    ∧ encodeInstruction 1 30 = Except.ok (1 :: le64 30)
    ∧ le64 30 = [30, 0, 0, 0, 0, 0, 0, 0] := by
  refine ⟨?_, rfl, rfl, rfl, rfl⟩
  intro disc amount h1 h2
  refine ⟨?_, by simp [le64], rfl, rfl⟩
  unfold encodeInstruction
  rw [if_neg (by omega), if_neg (by omega)]

theorem C1_instruction_payload_witness :
    encodeInstruction 0 50 = Except.ok (0 :: le64 50)
    ∧ (0 :: le64 50).length = 9 := by
  have h := C1_instruction_payload.1 0 50 (by decide) (by decide)
  exact ⟨h.1, h.2.1⟩

/-- Claim C2: with an existing wallet file, `getOrCreateKeypair`
returns the keypair reconstructed from the stored secret-key bytes and
does not write; with no file, it returns the generated keypair and
persists its secret key; re-running on the written file loads the
identical keypair. -/
theorem C2_getOrCreateKeypair :
    ∀ (fs : FS) (path : String) (fresh : List Nat),
      (∀ content arr, fs path = some content → parseJsonNatArray content = some arr →
        (uint8ArrayFrom arr).length = 64 →
        getOrCreateKeypair fs path fresh = Except.ok (⟨uint8ArrayFrom arr⟩, fs))
      ∧ (fs path = none →
          getOrCreateKeypair fs path fresh
            = Except.ok (Keypair.ofGenerated fresh,
                writeFile fs path (jsonStringifyNatArray fresh))
          ∧ writeFile fs path (jsonStringifyNatArray fresh) path
              = some (jsonStringifyNatArray fresh)
          ∧ ∀ q, q ≠ path → writeFile fs path (jsonStringifyNatArray fresh) q = fs q)
      ∧ (fresh.length = 64 → (∀ b ∈ fresh, b < 256) →
          ∀ fresh2,
            getOrCreateKeypair (writeFile fs path (jsonStringifyNatArray fresh)) path fresh2
              = Except.ok (Keypair.ofGenerated fresh,
                  writeFile fs path (jsonStringifyNatArray fresh))) := by
  intro fs path fresh
  refine ⟨?_, ?_, ?_⟩
  · intro content arr h hparse hlen
    rw [getOrCreateKeypair_some fs path fresh content h, hparse]
    simp [Keypair.fromSecretKey, hlen, Except.map]
  · intro h
    refine ⟨getOrCreateKeypair_none fs path fresh h, by simp [writeFile], ?_⟩
    intro q hq
    simp [writeFile, hq]
  · intro h64 hb fresh2
    have hw : writeFile fs path (jsonStringifyNatArray fresh) path
        = some (jsonStringifyNatArray fresh) := by simp [writeFile]
    rw [getOrCreateKeypair_some _ path fresh2 _ hw, parse_stringify]
    simp [uint8ArrayFrom_eq_self fresh hb, Keypair.fromSecretKey, h64, Except.map,
      Keypair.ofGenerated]

theorem C2_getOrCreateKeypair_witness :
    getOrCreateKeypair (fun _ => none) USER1_FILE (List.replicate 64 7)
      = Except.ok (Keypair.ofGenerated (List.replicate 64 7),
          writeFile (fun _ => none) USER1_FILE (jsonStringifyNatArray (List.replicate 64 7)))
    ∧ getOrCreateKeypair
        (writeFile (fun _ => none) USER1_FILE (jsonStringifyNatArray (List.replicate 64 7)))
        USER1_FILE (List.replicate 64 9)
      = Except.ok (Keypair.ofGenerated (List.replicate 64 7),
          writeFile (fun _ => none) USER1_FILE (jsonStringifyNatArray (List.replicate 64 7))) := by
  have h := C2_getOrCreateKeypair (fun _ => none) USER1_FILE (List.replicate 64 7)
  exact ⟨(h.2.1 rfl).1, h.2.2 (by decide) (by decide) (List.replicate 64 9)⟩

/-- Claim C3: serializing a secret key as a JSON array of integers and
parsing it back (the two branches of the persistence helpers) yields
the identical byte list. -/
theorem C3_secret_key_roundtrip (sk : List Nat) (h : ∀ b ∈ sk, b < 256) :
    (parseJsonNatArray (jsonStringifyNatArray sk)).map uint8ArrayFrom = some sk := by
  rw [parse_stringify]
  simp [uint8ArrayFrom_eq_self sk h]

theorem C3_secret_key_roundtrip_witness :
    (parseJsonNatArray (jsonStringifyNatArray [0, 1, 127, 255])).map uint8ArrayFrom
      = some [0, 1, 127, 255] :=
  C3_secret_key_roundtrip [0, 1, 127, 255] (by decide)

/-- Claim C4: `airdropIfNeeded` issues an airdrop request (of
`2 * LAMPORTS_PER_SOL`) exactly when the queried balance is strictly
below `2 * LAMPORTS_PER_SOL`; at or above, nothing is requested. -/
theorem C4_airdrop_threshold :
    ∀ (env : Env) (pubkey : PK) (b : Nat), env.getBalance pubkey = Except.ok b →
      (2 * LAMPORTS_PER_SOL ≤ b → airdropIfNeeded env pubkey = Except.ok [])
      ∧ (b < 2 * LAMPORTS_PER_SOL →
          airdropIfNeeded env pubkey
            = (env.requestAirdrop pubkey (2 * LAMPORTS_PER_SOL)).bind
                (fun sig => (env.confirmTx sig).bind
                  (fun _ => Except.ok [(pubkey, 2 * LAMPORTS_PER_SOL)])))
      ∧ (∀ l, airdropIfNeeded env pubkey = Except.ok l →
          ((l ≠ []) ↔ b < 2 * LAMPORTS_PER_SOL)) := by
  intro env pubkey b h
  have hbase : airdropIfNeeded env pubkey
      = if b < 2 * LAMPORTS_PER_SOL then
          (env.requestAirdrop pubkey (2 * LAMPORTS_PER_SOL)).bind
            (fun sig => (env.confirmTx sig).bind
              (fun _ => Except.ok [(pubkey, 2 * LAMPORTS_PER_SOL)]))
        else Except.ok [] := by
    unfold airdropIfNeeded
    rw [h]
    rfl
  refine ⟨?_, ?_, ?_⟩
  · intro hge
    rw [hbase, if_neg (by omega)]
  · intro hlt
    rw [hbase, if_pos hlt]
  · intro l hl
    by_cases hlt : b < 2 * LAMPORTS_PER_SOL
    · rw [hbase, if_pos hlt] at hl
      cases hr : env.requestAirdrop pubkey (2 * LAMPORTS_PER_SOL) with
      | error e => rw [hr] at hl; simp [Except.bind] at hl
      | ok sig =>
        rw [hr] at hl
        simp only [Except.bind] at hl
        cases hc : env.confirmTx sig with
        | error e => rw [hc] at hl; simp [Except.bind] at hl
        | ok u =>
          rw [hc] at hl
          simp only [Except.bind, Except.ok.injEq] at hl
          subst hl
          simp [hlt]
    · rw [hbase, if_neg hlt] at hl
      simp only [Except.ok.injEq] at hl
      subst hl
      simp [hlt]

theorem C4_airdrop_threshold_witness :
    airdropIfNeeded envOk (List.replicate 32 4) = Except.ok [] :=
  (C4_airdrop_threshold envOk (List.replicate 32 4) (3 * LAMPORTS_PER_SOL) rfl).1
    (by norm_num [LAMPORTS_PER_SOL])

/-- Claim C5: the derived addresses are deterministic functions of
their seeds and the mint (or sequence) under a fixed program id: equal
inputs give equal derived addresses for the escrow-data, vault and
logger-message seeds. -/
theorem C5_pda_deterministic :
    ∀ (fpa : List (List Nat) → PK → PK × Nat) (prog : PK) (m1 m2 : PK) (s1 s2 : Nat),
      m1 = m2 → s1 = s2 →
      escrowPdaOf fpa prog m1 = escrowPdaOf fpa prog m2
      ∧ vaultPdaOf fpa prog m1 = vaultPdaOf fpa prog m2
      ∧ getMessagePda fpa prog s1 = getMessagePda fpa prog s2 := by
  intro fpa prog m1 m2 s1 s2 hm hs
  subst hm
  subst hs
  exact ⟨rfl, rfl, rfl⟩

theorem C5_pda_deterministic_witness :
    escrowPdaOf fpa0 (List.replicate 32 8) (List.replicate 32 9)
      = escrowPdaOf fpa0 (List.replicate 32 8) (List.replicate 32 9)
    ∧ vaultPdaOf fpa0 (List.replicate 32 8) (List.replicate 32 9)
      = vaultPdaOf fpa0 (List.replicate 32 8) (List.replicate 32 9)
    ∧ getMessagePda fpa0 (List.replicate 32 8) 6 = getMessagePda fpa0 (List.replicate 32 8) 6 :=
  C5_pda_deterministic fpa0 (List.replicate 32 8) (List.replicate 32 9) (List.replicate 32 9) 6 6
    rfl rfl

/-! ## Reading the logger sequence -/

/-- Helper: value of `getLoggerSequence` on an existing account with
at least 8 bytes of data. -/
theorem getLoggerSequence_some (env : Env) (statePubkey : PK) (d : List Nat)
    (h : env.getAccountInfo statePubkey = Except.ok (some d)) (hlen : 8 ≤ d.length) :
    getLoggerSequence env statePubkey
      = Except.ok (toFloat64Nat (readBigUInt64LE d)) := by
  unfold getLoggerSequence
  rw [h]
  show (if d.length < 8 then Except.error ("Invalid LoggerState")
        else pure (toFloat64Nat (readBigUInt64LE d)))
      = Except.ok (toFloat64Nat (readBigUInt64LE d))
  rw [if_neg (by omega)]
  rfl

/-- Helper: `getLoggerSequence` throws when the account is absent. -/
theorem getLoggerSequence_none (env : Env) (statePubkey : PK)
    (h : env.getAccountInfo statePubkey = Except.ok none) :
    getLoggerSequence env statePubkey = Except.error ("LoggerState not found") := by
  unfold getLoggerSequence
  rw [h]
  rfl

/-- Helper: `getLoggerSequence` throws when the data is short. -/
theorem getLoggerSequence_short (env : Env) (statePubkey : PK) (d : List Nat)
    (h : env.getAccountInfo statePubkey = Except.ok (some d)) (hlen : d.length < 8) :
    getLoggerSequence env statePubkey = Except.error ("Invalid LoggerState") := by
  unfold getLoggerSequence
  rw [h]
  show (if d.length < 8 then Except.error ("Invalid LoggerState")
        else pure (toFloat64Nat (readBigUInt64LE d)))
      = Except.error ("Invalid LoggerState")
  rw [if_pos hlen]

/-- Claim C6 counterexample: with 8-byte account data holding the
counter `2 ^ 53 + 1`, `getLoggerSequence` returns `2 ^ 53`
(9007199254740992), not the stored little-endian value
9007199254740993: the claim's unconditional "returns the `u64` read"
fails at this input. -/
theorem C6_counterexample :
    getLoggerSequence envSeqHuge1 (List.replicate 32 3) = Except.ok 9007199254740992
    ∧ readBigUInt64LE [1, 0, 0, 0, 0, 0, 32, 0] = 9007199254740993
    ∧ (9007199254740992 == 9007199254740993) = false := by
  exact ⟨rfl, by decide, by decide⟩

/-- Claim C6 (amended): for every logger-state account with at least
8 bytes of data whose stored little-endian `u64` counter is below
`2 ^ 53`, `getLoggerSequence` returns exactly that counter. -/
theorem C6_amended_sequence_read (env : Env) (statePubkey : PK) (d : List Nat)
    (h : env.getAccountInfo statePubkey = Except.ok (some d)) (hlen : 8 ≤ d.length)
    (hsmall : readBigUInt64LE d < 2 ^ 53) :
    getLoggerSequence env statePubkey = Except.ok (readBigUInt64LE d) := by
  rw [getLoggerSequence_some env statePubkey d h hlen, toFloat64Nat_of_lt _ hsmall]

theorem C6_amended_sequence_read_witness :
    getLoggerSequence envOk (List.replicate 32 3) = Except.ok 5 := by
  have h := C6_amended_sequence_read envOk (List.replicate 32 3)
    [5, 0, 0, 0, 0, 0, 0, 0] rfl (by decide) (by decide)
  exact h.trans (congrArg Except.ok (by decide))

/-- Claim C9: `getLoggerSequence` raises exactly when the account is
absent or its data is shorter than 8 bytes; an existing account with
at least 8 bytes of data reaches neither error branch and the
function returns normally. -/
theorem C9_sequence_error_iff (env : Env) (statePubkey : PK) :
    (env.getAccountInfo statePubkey = Except.ok none →
      getLoggerSequence env statePubkey = Except.error ("LoggerState not found"))
    ∧ (∀ d, env.getAccountInfo statePubkey = Except.ok (some d) → d.length < 8 →
        getLoggerSequence env statePubkey = Except.error ("Invalid LoggerState"))
    ∧ (∀ d, env.getAccountInfo statePubkey = Except.ok (some d) → 8 ≤ d.length →
        getLoggerSequence env statePubkey = Except.ok (toFloat64Nat (readBigUInt64LE d)))
    ∧ (∀ info, env.getAccountInfo statePubkey = Except.ok info →
        ((∃ e, getLoggerSequence env statePubkey = Except.error e)
          ↔ (info = none ∨ ∃ d, info = some d ∧ d.length < 8))) := by
  refine ⟨fun h => getLoggerSequence_none env statePubkey h,
          fun d h hl => getLoggerSequence_short env statePubkey d h hl,
          fun d h hl => getLoggerSequence_some env statePubkey d h hl,
          ?_⟩
  intro info h
  cases info with
  | none =>
    exact iff_of_true ⟨_, getLoggerSequence_none env statePubkey h⟩ (Or.inl rfl)
  | some d =>
    by_cases hl : d.length < 8
    · exact iff_of_true ⟨_, getLoggerSequence_short env statePubkey d h hl⟩
        (Or.inr ⟨d, rfl, hl⟩)
    · apply iff_of_false
      · rintro ⟨e, he⟩
        rw [getLoggerSequence_some env statePubkey d h (by omega)] at he
        exact Except.noConfusion he
      · rintro (h1 | ⟨d', hd', hl'⟩)
        · exact Option.noConfusion h1
        · injection hd' with hdd
          subst hdd
          omega

theorem C9_sequence_error_iff_witness :
    getLoggerSequence envOk (List.replicate 32 3)
      = Except.ok (toFloat64Nat (readBigUInt64LE [5, 0, 0, 0, 0, 0, 0, 0])) :=
  (C9_sequence_error_iff envOk (List.replicate 32 3)).2.2.1
    [5, 0, 0, 0, 0, 0, 0, 0] rfl (by decide)

/-- Claim C10 counterexample: the stored counter `2 ^ 53` is not below
`2 ^ 53`, yet `getLoggerSequence` returns it exactly — refuting both
"equals the stored counter only when it is below `2 ^ 53`" and "for
counters at or above `2 ^ 53` the conversion is not exact". -/
theorem C10_counterexample :
    2 ^ 53 ≤ readBigUInt64LE [0, 0, 0, 0, 0, 0, 32, 0]
    ∧ getLoggerSequence envSeqHuge (List.replicate 32 3)
        = Except.ok (readBigUInt64LE [0, 0, 0, 0, 0, 0, 32, 0]) := by
  exact ⟨by decide, rfl⟩

/-- Claim C10 (amended): `Number` conversion is exact for every stored
counter below `2 ^ 53`, and then `getMessagePda` encodes exactly
`counter + 1` in the seeds; at or above `2 ^ 53` the conversion is not
always exact (`2 ^ 53 + 1` converts to `2 ^ 53`), though some such
counters (e.g. `2 ^ 53` itself) do convert exactly. -/
theorem C10_amended_number_conversion :
    (∀ n, n < 2 ^ 53 → toFloat64Nat n = n ∧ jsAddOne n = n + 1
      ∧ ∀ (fpa : List (List Nat) → PK → PK × Nat) (prog : PK),
          getMessagePda fpa prog (jsAddOne n)
            = Except.ok (fpa [strBytes ("logger"), le64 (n + 1)] prog))
    ∧ toFloat64Nat (2 ^ 53 + 1) = 2 ^ 53
    ∧ toFloat64Nat (2 ^ 53) = 2 ^ 53 := by
  refine ⟨?_, by decide, by decide⟩
  intro n hn
  refine ⟨toFloat64Nat_of_lt n hn, jsAddOne_of_lt n hn, ?_⟩
  intro fpa prog
  have h64 : n + 1 < 2 ^ 64 := by
    have hpow : (2 : Nat) ^ 53 < 2 ^ 64 := by norm_num
    omega
  rw [jsAddOne_of_lt n hn]
  unfold getMessagePda
  rw [if_pos h64]

theorem C10_amended_number_conversion_witness :
    toFloat64Nat 5 = 5 ∧ jsAddOne 5 = 6
    ∧ getMessagePda fpa0 (List.replicate 32 7) (jsAddOne 5)
        = Except.ok (fpa0 [strBytes ("logger"), le64 (5 + 1)] (List.replicate 32 7)) := by
  have h := C10_amended_number_conversion.1 5 (by decide)
  exact ⟨h.1, h.2.1, h.2.2 fpa0 (List.replicate 32 7)⟩

/-- Claim C7 counterexample: with the logger-state counter at
`2 ^ 53`, the sequence read is `2 ^ 53` but the message address built
by `main` encodes `2 ^ 53` again (JavaScript `+ 1` rounds back), not
the read counter plus one — so the address differs from the one the
claim prescribes. -/
theorem C7_counterexample :
    readSeqAndMessagePda envSeqHuge (List.replicate 32 3)
      = Except.ok (9007199254740992,
          (envSeqHuge.fpa [strBytes ("logger"), le64 9007199254740992]
            envSeqHuge.loggerProgramId).1)
    ∧ ((envSeqHuge.fpa [strBytes ("logger"), le64 9007199254740992]
          envSeqHuge.loggerProgramId).1
        == (envSeqHuge.fpa [strBytes ("logger"), le64 (9007199254740992 + 1)]
          envSeqHuge.loggerProgramId).1) = false := by
  exact ⟨rfl, by decide⟩

/-- Claim C7 (amended): whenever the sequence counter read immediately
before building the instruction is below `2 ^ 53`, the message address
used in that instruction is derived from the seeds `"logger"` and the
8-byte little-endian encoding of that counter plus one; in both the
deposit and the withdraw instruction the message account occupies the
expected key slot (index 9, resp. 8). -/
theorem C7_amended_message_pda :
    (∀ (env : Env) (statePubkey : PK) (seq : Nat) (mp : PK),
      readSeqAndMessagePda env statePubkey = Except.ok (seq, mp) → seq < 2 ^ 53 →
      getLoggerSequence env statePubkey = Except.ok seq
      ∧ mp = (env.fpa [strBytes ("logger"), le64 (seq + 1)] env.loggerProgramId).1)
    ∧ (∀ (escrowProg loggerProg user1Pk user1Tok user2Tok escrowData vault
        loggerState msgPda mint : PK) (dDep dWit : List Nat),
        (buildDepositIx escrowProg loggerProg user1Pk user1Tok escrowData vault
            loggerState msgPda mint dDep).keys.get? 9
          = some ⟨msgPda, false, true⟩
        ∧ (buildWithdrawIx escrowProg loggerProg user1Pk user2Tok escrowData vault
            loggerState msgPda dWit).keys.get? 8
          = some ⟨msgPda, false, true⟩) := by
  constructor
  · intro env statePubkey seq mp h hlt
    unfold readSeqAndMessagePda at h
    cases hs : getLoggerSequence env statePubkey with
    | error e =>
      rw [hs] at h
      change (Except.error e : Except Err (Nat × PK)) = Except.ok (seq, mp) at h
      exact Except.noConfusion h
    | ok s =>
      rw [hs] at h
      change Except.bind (getMessagePda env.fpa env.loggerProgramId (jsAddOne s))
        (fun r => Except.ok (s, r.1)) = Except.ok (seq, mp) at h
      unfold getMessagePda at h
      by_cases hr : jsAddOne s < 2 ^ 64
      · rw [if_pos hr] at h
        change Except.ok
            (s, (env.fpa [strBytes ("logger"), le64 (jsAddOne s)] env.loggerProgramId).1)
          = Except.ok (seq, mp) at h
        simp only [Except.ok.injEq, Prod.mk.injEq] at h
        obtain ⟨h1, h2⟩ := h
        subst h1
        refine ⟨rfl, ?_⟩
        rw [← h2, jsAddOne_of_lt _ hlt]
      · rw [if_neg hr] at h
        change (Except.error ("RangeError") : Except Err (Nat × PK))
          = Except.ok (seq, mp) at h
        exact Except.noConfusion h
  · intro escrowProg loggerProg user1Pk user1Tok user2Tok escrowData vault
      loggerState msgPda mint dDep dWit
    exact ⟨rfl, rfl⟩

theorem C7_amended_message_pda_witness :
    getLoggerSequence envOk (List.replicate 32 3) = Except.ok 5
    ∧ (fpa0 [strBytes ("logger"), le64 (jsAddOne 5)] (List.replicate 32 7)).1
        = (envOk.fpa [strBytes ("logger"), le64 (5 + 1)] envOk.loggerProgramId).1 := by
  have h := C7_amended_message_pda.1 envOk (List.replicate 32 3) 5
    ((fpa0 [strBytes ("logger"), le64 (jsAddOne 5)] (List.replicate 32 7)).1)
    rfl (by decide)
  exact ⟨h.1, h.2⟩

/-- Claim C8: any error raised during the run of `main` — every
external call is a fallible step of the `Except` chain, with no
intermediate handler and no retry — propagates to the single
top-level catch, which logs it; a successful run logs nothing there. -/
theorem C8_error_propagation (env : Env) :
    (∀ e, mainRun env = Except.error e → mainCatch env = [("Main failed: ") ++ e])
    ∧ (∀ out, mainRun env = Except.ok out → mainCatch env = []) := by
  constructor
  · intro e h
    unfold mainCatch
    rw [h]
  · intro out h
    unfold mainCatch
    rw [h]

theorem C8_error_propagation_witness :
    mainCatch envFailMint = [("Main failed: ") ++ "boom"] :=
  (C8_error_propagation envFailMint).1 "boom" rfl
